import Mathlib

/-
Shallow embedding of the Kraken-Screener-Sentiment pipeline (src/main.py).

Sentiment scores are modelled as rationals (the black-box VADER scorer is an
abstract parameter `scorer : String → ℚ`), HTTP traffic as explicit lists of
attempt outcomes consumed in order, and Python string operations
(strip/upper/split/truthiness) as executable functions on `String`.
-/

namespace KrakenScreener

/-- Whitespace characters recognised by Python's `str.strip()` (ASCII part). -/
def isPySpace (c : Char) : Bool :=
  c = ' ' || c = '\t' || c = '\n' || c = '\r' || c = Char.ofNat 11 || c = Char.ofNat 12

/-- Python `s.strip()`: drop leading and trailing whitespace. -/
def pyStrip (s : String) : String :=
  ⟨(((s.data.dropWhile isPySpace).reverse.dropWhile isPySpace).reverse)⟩

/-- Python `s.upper()` (ASCII). -/
def pyUpper (s : String) : String :=
  ⟨s.data.map Char.toUpper⟩

/-- Python `s.split(c)[0]`: the substring before the first occurrence of `c`
(the whole string when `c` does not occur). -/
def takeBefore (c : Char) (s : String) : String :=
  ⟨s.data.takeWhile (fun d => d ≠ c)⟩

/-- `normalize_ticker_for_news` from src/main.py: upper-case, then cut at the
first `/` if present, then cut the result at the first `-` if present.
Note the two `if`s are sequential, not `elif`. -/
def normalize_ticker_for_news (ticker : String) : String :=
  let t0 := pyUpper ticker
  let t1 := if t0.data.contains '/' then takeBefore '/' t0 else t0
  let t2 := if t1.data.contains '-' then takeBefore '-' t1 else t1
  t2

/-- The spec's reading of normalization (§4.1): upper-case, and an `else if`
between the `/` cut and the `-` cut. Written from the spec's words, for
comparison with `normalize_ticker_for_news`. -/
def normalizeSpec (ticker : String) : String :=
  let t0 := pyUpper ticker
  if t0.data.contains '/' then takeBefore '/' t0
  else if t0.data.contains '-' then takeBefore '-' t0
  else t0

/-- Round-half-to-even on rationals, as Python's builtin `round` behaves on
exact decimal values. -/
def roundHalfEven (q : ℚ) : ℤ :=
  let f := ⌊q⌋
  let frac := q - (f : ℚ)
  if frac < 1/2 then f
  else if 1/2 < frac then f + 1
  else if f % 2 = 0 then f else f + 1

/-- Python `round(q, 4)` on exact rational values. -/
def round4 (q : ℚ) : ℚ :=
  (roundHalfEven (q * 10000) : ℚ) / 10000

/-- Python truthiness of `str`-or-`None`: `None` and the empty string are
falsy. `truthy o` is `some s` exactly when the value is a non-empty string. -/
def truthy (o : Option String) : Option String :=
  match o with
  | some s => if s = "" then none else some s
  | none => none

/-- Python `(o or "")` for a `str`-or-`None` value. -/
def orEmpty (o : Option String) : String :=
  match o with
  | some s => s
  | none => ""

/-- `get_tickers` from src/main.py: drop the header row, keep only entries
that are non-blank after stripping, strip and upper-case the survivors. -/
def get_tickers (colA : List String) : List String :=
  match colA with
  | [] => []
  | _ :: rest =>
    (rest.filter (fun v => pyStrip v ≠ "")).map (fun v => pyUpper (pyStrip v))

/-! ### Articles and scoring -/

/-- A Finnhub article as consumed by src/main.py: the `headline` and `summary`
fields, each possibly missing. -/
structure RawArticle where
  headline : Option String
  summary : Option String
deriving DecidableEq

/-- A CryptoNews article as consumed by src/main.py: `title`/`news_title` and
`text`/`content` fields, each possibly missing. -/
structure CNArticle where
  title : Option String
  news_title : Option String
  text : Option String
  content : Option String
deriving DecidableEq

/-- Text built for a Finnhub article:
`((headline or "").strip() + ". " + (summary or "").strip()).strip()`. -/
def finnhubText (a : RawArticle) : String :=
  let headline := pyStrip (orEmpty a.headline)
  let summary := pyStrip (orEmpty a.summary)
  pyStrip (headline ++ ". " ++ summary)

/-- Python `(article.get("title") or article.get("news_title") or "")`. -/
def cnTitleField (a : CNArticle) : String :=
  match truthy a.title with
  | some s => s
  | none => orEmpty (truthy a.news_title)

/-- Python `(article.get("text") or article.get("content") or "")`. -/
def cnBodyField (a : CNArticle) : String :=
  match truthy a.text with
  | some s => s
  | none => orEmpty (truthy a.content)

/-- Text built for a CryptoNews article: `(title.strip() + ". " + body.strip()).strip()`. -/
def cnText (a : CNArticle) : String :=
  let title := pyStrip (cnTitleField a)
  let body := pyStrip (cnBodyField a)
  pyStrip (title ++ ". " ++ body)

/-- The per-article loop of both source functions: skip articles whose built
text is empty, score the rest with the black-box scorer, keeping order. -/
def compoundsOf (scorer : String → ℚ) (texts : List String) : List ℚ :=
  texts.filterMap (fun t => if t = "" then none else some (scorer t))

/-- The tail of both source functions: `(None, 0)` when no article yielded
usable text, else the mean compound rounded to 4 places with the count. -/
def aggregate (compounds : List ℚ) : Option ℚ × ℕ :=
  if compounds = [] then (none, 0)
  else (some (round4 (compounds.sum / compounds.length)), compounds.length)

/-! ### HTTP model

Each `session.get` call consumes the next element of a list of attempt
outcomes: either a transport-level exception or a response. -/

/-- The `X-RateLimit-Reset` header: absent (or empty, which Python treats the
same), present but not parsable as an int, or a parsed epoch timestamp. -/
inductive ResetHeader
  | absent
  | unparsable
  | value (ts : ℤ)

/-- `wait_secs` computed by the Finnhub 429 branch. -/
def waitSecs (h : ResetHeader) (now : ℤ) : ℤ :=
  match h with
  | .value ts => max 0 (ts - now + 1)
  | .absent => 60
  | .unparsable => 60

/-- The JSON body of a Finnhub response: `resp.json()` raising, returning a
non-list value, or returning a list of articles. -/
inductive FinnBody
  | parseError
  | notList
  | articles (l : List RawArticle)

/-- One Finnhub HTTP response. -/
structure FinnResp where
  status : ℕ
  reset : ResetHeader
  body : FinnBody

/-- One Finnhub `session.get` attempt outcome. -/
inductive FinnAttempt
  | exn
  | resp (r : FinnResp)

/-- The parsed JSON broken out of the fetch loop, when the loop broke. -/
inductive FinnJson
  | notList
  | list (l : List RawArticle)

/-- The `for attempt in range(2)` loop of `compute_finnhub_sentiment_for_ticker`:
on 429 sleep `waitSecs` and retry; on any exception (transport, non-2xx raise,
JSON parse) return no data; otherwise break with the parsed JSON. Fuel 0 is
the loop's `else` clause. Returns (parsed json or none, sleeps performed,
HTTP attempts made). -/
def finnhubLoop (now : ℤ) : ℕ → List FinnAttempt → Option FinnJson × List ℤ × ℕ
  | 0, _ => (none, [], 0)
  | _ + 1, [] => (none, [], 1)
  | _ + 1, .exn :: _ => (none, [], 1)
  | fuel + 1, .resp r :: rest =>
    if r.status = 429 then
      let res := finnhubLoop now fuel rest
      (res.1, waitSecs r.reset now :: res.2.1, res.2.2 + 1)
    else if 400 ≤ r.status then (none, [], 1)
    else
      match r.body with
      | .parseError => (none, [], 1)
      | .notList => (some .notList, [], 1)
      | .articles l => (some (.list l), [], 1)

/-- `compute_finnhub_sentiment_for_ticker` after the fetch loop: reject a
non-list or empty article list, truncate to `maxArticles`, build texts, score
non-empty ones, and aggregate. Returns the (score, count) pair together with
the sleeps performed and HTTP attempts made. -/
def compute_finnhub_sentiment_for_ticker (scorer : String → ℚ) (now : ℤ)
    (maxArticles : ℕ) (attempts : List FinnAttempt) :
    (Option ℚ × ℕ) × List ℤ × ℕ :=
  let res := finnhubLoop now 2 attempts
  match res.1 with
  | none => ((none, 0), res.2)
  | some .notList => ((none, 0), res.2)
  | some (.list articles) =>
    if articles = [] then ((none, 0), res.2)
    else
      let kept := articles.take maxArticles
      (aggregate (compoundsOf scorer (kept.map finnhubText)), res.2)

/-- The `data` field of a CryptoNews payload: missing/falsy (treated as `[]`),
a non-list value, or a list of articles. -/
inductive CNData
  | missing
  | notList
  | articles (l : List CNArticle)

/-- The JSON body of a CryptoNews response: `resp.json()` raising, or a payload
with its `data` field. -/
inductive CNBody
  | parseError
  | payload (d : CNData)

/-- One CryptoNews `session.get` attempt outcome. -/
inductive CNAttempt
  | exn
  | resp (status : ℕ) (body : CNBody)

/-- `compute_cryptonews_sentiment_for_ticker`: a single `session.get` with no
retry loop; any non-200 status (429 included) or parse failure yields no data;
the article list is scored in full — `maxItems` is only sent as the request's
`items` parameter and never truncates the response. Returns the (score, count)
pair and the number of HTTP attempts made. -/
def compute_cryptonews_sentiment_for_ticker (scorer : String → ℚ)
    (maxItems : ℕ) (attempts : List CNAttempt) : (Option ℚ × ℕ) × ℕ :=
  match attempts with
  | [] => ((none, 0), 1)
  | .exn :: _ => ((none, 0), 1)
  | .resp status body :: _ =>
    if status ≠ 200 then ((none, 0), 1)
    else
      match body with
      | .parseError => ((none, 0), 1)
      | .payload .missing => ((none, 0), 1)
      | .payload .notList => ((none, 0), 1)
      | .payload (.articles articles) =>
        if articles = [] then ((none, 0), 1)
        else (aggregate (compoundsOf scorer (articles.map cnText)), 1)

/-! ### Combination and driver -/

/-- `compute_combined_sentiment_for_ticker`, combination stage: accumulate
count and weighted sum over the two source results, including a source only
when its score is not `None` and its count is positive. -/
def compute_combined_sentiment_for_ticker (finn cn : Option ℚ × ℕ) :
    Option ℚ × ℕ :=
  let acc1 : ℕ × ℚ :=
    match finn.1 with
    | some s => if 0 < finn.2 then (finn.2, s * finn.2) else (0, 0)
    | none => (0, 0)
  let acc2 : ℕ × ℚ :=
    match cn.1 with
    | some s => if 0 < cn.2 then (acc1.1 + cn.2, acc1.2 + s * cn.2) else acc1
    | none => acc1
  if acc2.1 = 0 then (none, 0)
  else (some (round4 (acc2.2 / (acc2.1 : ℚ))), acc2.1)

/-- One spreadsheet cell of an output row. -/
inductive Cell
  | str (s : String)
  | num (q : ℚ)
  | int (n : ℕ)
deriving DecidableEq

/-- The row appended for one ticker in `main`: `["", 0, ts]` when the combined
score is `None`, else `[compound, count, ts]`. -/
def rowFor (ts : String) (r : Option ℚ × ℕ) : List Cell :=
  match r.1 with
  | none => [.str "", .int 0, .str ts]
  | some c => [.num c, .int r.2, .str ts]

/-- Result of a `main` run: the early `"No tickers found."` return, a raised
`RuntimeError`, or completion with the rows written to the sheet. -/
inductive RunResult
  | earlyExit
  | fatal (msg : String)
  | completed (rows : List (List Cell))
deriving DecidableEq

/-- `main` from src/main.py, after the worksheet is read: an empty ticker list
returns early; then the two credentials are checked (Python truthiness: a
missing or empty env var raises); then every ticker yields exactly one row,
in order. `fetch` abstracts `compute_combined_sentiment_for_ticker` applied
to ticker's HTTP traffic; `ts` the per-row timestamp. -/
def main (tickers : List String) (finnhubKey cryptonewsToken : Option String)
    (fetch : String → Option ℚ × ℕ) (ts : String) : RunResult :=
  if tickers = [] then .earlyExit
  else
    match truthy finnhubKey with
    | none => .fatal "FINNHUB_API_KEY env var missing."
    | some _ =>
      match truthy cryptonewsToken with
      | none => .fatal "CRYPTONEWS_API_TOKEN env var missing."
      | some _ => .completed (tickers.map (fun t => rowFor ts (fetch t)))

/-! ### Helper lemmas -/

/-- A character that does not satisfy `p` survives `dropWhile p`. -/
lemma mem_dropWhile_of_mem (p : Char → Bool) (c : Char) (hc : p c = false) :
    ∀ l : List Char, c ∈ l → c ∈ l.dropWhile p := by
  intro l hl
  induction l with
  | nil => simp at hl
  | cons a t ih =>
    by_cases ha : p a
    · rw [List.dropWhile_cons_of_pos ha]
      rcases List.mem_cons.mp hl with h | h
      · subst h; rw [hc] at ha; exact absurd ha (by simp)
      · exact ih h
    · rw [List.dropWhile_cons_of_neg ha]
      exact hl

/-- A non-whitespace character of `s` survives `pyStrip`. -/
lemma mem_pyStrip (c : Char) (hc : isPySpace c = false) (s : String)
    (h : c ∈ s.data) : c ∈ (pyStrip s).data := by
  unfold pyStrip
  exact List.mem_reverse.mpr
    (mem_dropWhile_of_mem isPySpace c hc _
      (List.mem_reverse.mpr (mem_dropWhile_of_mem isPySpace c hc _ h)))

/-- A string holding a non-whitespace character does not strip to empty. -/
lemma pyStrip_ne_empty (c : Char) (hc : isPySpace c = false) (s : String)
    (h : c ∈ s.data) : ¬ pyStrip s = "" := by
  intro he
  have hm := mem_pyStrip c hc s h
  rw [he] at hm
  exact absurd hm (by simp [String.data])

/-- The text built for a Finnhub article always holds the inserted period. -/
lemma dot_mem_finnhubText (a : RawArticle) : '.' ∈ (finnhubText a).data := by
  unfold finnhubText
  refine mem_pyStrip '.' (by decide) _ ?_
  rw [String.data_append, String.data_append]
  refine List.mem_append_left _ (List.mem_append_right _ ?_)
  decide

/-- The text built for a Finnhub article is never empty. -/
lemma finnhubText_ne_empty (a : RawArticle) : ¬ finnhubText a = "" := by
  intro he
  have hm := dot_mem_finnhubText a
  rw [he] at hm
  exact absurd hm (by simp [String.data])

/-- The text built for a CryptoNews article always holds the inserted period. -/
lemma dot_mem_cnText (a : CNArticle) : '.' ∈ (cnText a).data := by
  unfold cnText
  refine mem_pyStrip '.' (by decide) _ ?_
  rw [String.data_append, String.data_append]
  refine List.mem_append_left _ (List.mem_append_right _ ?_)
  decide

/-- The text built for a CryptoNews article is never empty. -/
lemma cnText_ne_empty (a : CNArticle) : ¬ cnText a = "" := by
  intro he
  have hm := dot_mem_cnText a
  rw [he] at hm
  exact absurd hm (by simp [String.data])

/-- When every text is non-empty, the per-article loop scores all of them. -/
lemma compoundsOf_all_usable (scorer : String → ℚ) :
    ∀ texts : List String, (∀ t ∈ texts, ¬ t = "") →
      compoundsOf scorer texts = texts.map scorer := by
  intro texts
  induction texts with
  | nil => intro _; rfl
  | cons a t ih =>
    intro h
    have ha := h a (List.mem_cons_self a t)
    have ht : ∀ x ∈ t, ¬ x = "" := fun x hx => h x (List.mem_cons_of_mem a hx)
    simp only [compoundsOf, List.filterMap_cons, if_neg ha, List.map_cons]
    rw [← compoundsOf, ih ht]

/-- `aggregate` on a non-empty compound list. -/
lemma aggregate_of_ne_nil (compounds : List ℚ) (h : ¬ compounds = []) :
    aggregate compounds =
      (some (round4 (compounds.sum / compounds.length)), compounds.length) := by
  simp [aggregate, if_neg h]

/-- `aggregate` on one compound. -/
lemma aggregate_singleton (q : ℚ) : aggregate [q] = (some (round4 q), 1) := by
  simp [aggregate]

/-- A single 200 response with a non-empty article list makes Finnhub score the
first `maxArticles` articles, with one HTTP attempt and no sleep. -/
lemma finnhub_single_ok (scorer : String → ℚ) (now : ℤ) (maxArticles : ℕ)
    (reset : ResetHeader) (l : List RawArticle) (hl : ¬ l = []) :
    compute_finnhub_sentiment_for_ticker scorer now maxArticles
        [.resp ⟨200, reset, .articles l⟩] =
      (aggregate (((l.take maxArticles).map finnhubText).map scorer), [], 1) := by
  have htexts : ∀ t ∈ (l.take maxArticles).map finnhubText, ¬ t = "" := by
    intro t ht
    rcases List.mem_map.mp ht with ⟨a, _, rfl⟩
    exact finnhubText_ne_empty a
  have hloop : finnhubLoop now 2 [.resp ⟨200, reset, .articles l⟩] =
      (some (.list l), [], 1) := by
    simp only [finnhubLoop]
    norm_num
  simp only [compute_finnhub_sentiment_for_ticker, hloop]
  rw [if_neg hl, compoundsOf_all_usable scorer _ htexts]

/-- A single 200 response with a non-empty article list makes CryptoNews score
every article, with one HTTP attempt. -/
lemma cryptonews_single_ok (scorer : String → ℚ) (maxItems : ℕ)
    (cl : List CNArticle) (hcl : ¬ cl = []) :
    compute_cryptonews_sentiment_for_ticker scorer maxItems
        [.resp 200 (.payload (.articles cl))] =
      (aggregate ((cl.map cnText).map scorer), 1) := by
  have htexts : ∀ t ∈ cl.map cnText, ¬ t = "" := by
    intro t ht
    rcases List.mem_map.mp ht with ⟨a, _, rfl⟩
    exact cnText_ne_empty a
  simp only [compute_cryptonews_sentiment_for_ticker,
    if_neg (show ¬ ((200 : ℕ) ≠ 200) by norm_num)]
  rw [if_neg hcl, compoundsOf_all_usable scorer _ htexts]

/-- `aggregate` never pairs a defined score with a zero count. -/
lemma aggregate_defined_imp_pos (c : List ℚ) (s : ℚ)
    (h : (aggregate c).1 = some s) : 0 < (aggregate c).2 := by
  rcases c with _ | ⟨a, t⟩
  · simp [aggregate] at h
  · simp [aggregate]

/-- The Finnhub source function returns either `(absent, 0)` or a defined
score with a positive count — the invariant assumed of source results by the
combination stage. -/
lemma finnhub_defined_imp_pos (scorer : String → ℚ) (now : ℤ) (limit : ℕ)
    (attempts : List FinnAttempt) (s : ℚ)
    (h : (compute_finnhub_sentiment_for_ticker scorer now limit attempts).1.1 =
      some s) :
    0 < (compute_finnhub_sentiment_for_ticker scorer now limit attempts).1.2 := by
  simp only [compute_finnhub_sentiment_for_ticker] at h ⊢
  cases hj : (finnhubLoop now 2 attempts).1 with
  | none => simp [hj] at h
  | some jv =>
    cases jv with
    | notList => simp [hj] at h
    | list l =>
      simp only [hj] at h ⊢
      by_cases he : l = []
      · rw [if_pos he] at h; simp at h
      · rw [if_neg he] at h ⊢
        exact aggregate_defined_imp_pos _ s h

/-- The CryptoNews source function returns either `(absent, 0)` or a defined
score with a positive count. -/
lemma cryptonews_defined_imp_pos (scorer : String → ℚ) (m : ℕ)
    (attempts : List CNAttempt) (s : ℚ)
    (h : (compute_cryptonews_sentiment_for_ticker scorer m attempts).1.1 =
      some s) :
    0 < (compute_cryptonews_sentiment_for_ticker scorer m attempts).1.2 := by
  rcases attempts with _ | ⟨o, rest⟩
  · simp [compute_cryptonews_sentiment_for_ticker] at h
  · rcases o with _ | ⟨status, body⟩
    · simp [compute_cryptonews_sentiment_for_ticker] at h
    · simp only [compute_cryptonews_sentiment_for_ticker] at h ⊢
      by_cases hs : status ≠ 200
      · rw [if_pos hs] at h; simp at h
      · rw [if_neg hs] at h ⊢
        cases body with
        | parseError => simp at h
        | payload d =>
          cases d with
          | missing => simp at h
          | notList => simp at h
          | articles l =>
            by_cases he : l = []
            · simp [he] at h
            · simp [he] at h ⊢
              exact aggregate_defined_imp_pos _ s h

/-! ### Claims -/

/-- Claim C1: for every ticker, the combined score equals the evidence-weighted
mean of the per-source scores — sum of `score * count` over sources with a
defined score divided by the sum of the counts of those same sources, rounded
to 4 decimal places — an absent source contributing to neither side; and for
source scores `(0.5, 10)` and `(-0.3, 5)` the combined score is `0.2333`.
The hypotheses record the source-function invariant that a defined score comes
with a positive count. -/
theorem claim_c1_weighted_mean (fs cs : Option ℚ) (fc cc : ℕ)
    (hf : ∀ s, fs = some s → 0 < fc) (hc : ∀ s, cs = some s → 0 < cc) :
    (compute_combined_sentiment_for_ticker (fs, fc) (cs, cc) =
      (let num : ℚ := (match fs with | some s => s * fc | none => 0) +
                      (match cs with | some s => s * cc | none => 0)
       let den : ℕ := (match fs with | some _ => fc | none => 0) +
                      (match cs with | some _ => cc | none => 0)
       if den = 0 then (none, 0) else (some (round4 (num / den)), den))) ∧
    compute_combined_sentiment_for_ticker (some (1/2), 10) (some (-3/10), 5) =
      (some (2333/10000), 15) := by
  constructor
  · rcases fs with _ | s
    · rcases cs with _ | c
      · simp [compute_combined_sentiment_for_ticker]
      · have h := hc c rfl
        simp [compute_combined_sentiment_for_ticker, h, h.ne']
    · have hfp := hf s rfl
      rcases cs with _ | c
      · simp [compute_combined_sentiment_for_ticker, hfp, hfp.ne']
      · have hcp := hc c rfl
        simp [compute_combined_sentiment_for_ticker, hfp, hcp,
          (Nat.add_pos_left hfp cc).ne']
  · norm_num [compute_combined_sentiment_for_ticker, round4, roundHalfEven]

/-- Witness for C1 at the spec's concrete example. -/
theorem claim_c1_weighted_mean_witness :
    compute_combined_sentiment_for_ticker (some (1/2), 10) (some (-3/10), 5) =
      (some (2333/10000), 15) :=
  (claim_c1_weighted_mean (some (1/2)) (some (-3/10)) 10 5
    (fun _ _ => by norm_num) (fun _ _ => by norm_num)).2

/-- Claim C2: the combined total count is the sum of the evidence counts of the
sources that contributed a defined score; the combined score is defined iff
that total is positive; and when every source is absent the result is
`(absent, 0)`. -/
theorem claim_c2_total_count (fs cs : Option ℚ) (fc cc : ℕ)
    (hf : ∀ s, fs = some s → 0 < fc) (hc : ∀ s, cs = some s → 0 < cc) :
    ((compute_combined_sentiment_for_ticker (fs, fc) (cs, cc)).2 =
      (match fs with | some _ => fc | none => 0) +
      (match cs with | some _ => cc | none => 0)) ∧
    ((compute_combined_sentiment_for_ticker (fs, fc) (cs, cc)).1.isSome ↔
      0 < (compute_combined_sentiment_for_ticker (fs, fc) (cs, cc)).2) ∧
    compute_combined_sentiment_for_ticker (none, fc) (none, cc) = (none, 0) := by
  refine ⟨?_, ?_, by simp [compute_combined_sentiment_for_ticker]⟩
  · rcases fs with _ | s
    · rcases cs with _ | c
      · simp [compute_combined_sentiment_for_ticker]
      · have h := hc c rfl
        simp [compute_combined_sentiment_for_ticker, h, h.ne']
    · have hfp := hf s rfl
      rcases cs with _ | c
      · simp [compute_combined_sentiment_for_ticker, hfp, hfp.ne']
      · have hcp := hc c rfl
        simp [compute_combined_sentiment_for_ticker, hfp, hcp,
          (Nat.add_pos_left hfp cc).ne']
  · rcases fs with _ | s
    · rcases cs with _ | c
      · simp [compute_combined_sentiment_for_ticker]
      · have h := hc c rfl
        simp [compute_combined_sentiment_for_ticker, h, h.ne']
    · have hfp := hf s rfl
      rcases cs with _ | c
      · simp [compute_combined_sentiment_for_ticker, hfp, hfp.ne']
      · have hcp := hc c rfl
        simp [compute_combined_sentiment_for_ticker, hfp, hcp,
          (Nat.add_pos_left hfp cc).ne', Nat.add_pos_left hfp cc]

/-- Witness for C2 at source results `(0.5, 10)` and `(absent, 0)`. -/
theorem claim_c2_total_count_witness :
    ((compute_combined_sentiment_for_ticker (some (1/2), 10) (none, 0)).2 = 10 + 0) ∧
    ((compute_combined_sentiment_for_ticker (some (1/2), 10) (none, 0)).1.isSome ↔
      0 < (compute_combined_sentiment_for_ticker (some (1/2), 10) (none, 0)).2) ∧
    compute_combined_sentiment_for_ticker (none, 0) (none, 0) = (none, 0) :=
  claim_c2_total_count (some (1/2)) none 10 0
    (fun _ _ => by norm_num) (fun s h => by simp at h)

/-- Claim C9: when exactly one source has a defined score and positive count
and the other is absent, the combined score is that source's score (modulo the
final 4-decimal rounding) and the total count is that source's count. -/
theorem claim_c9_single_source (s : ℚ) (n m : ℕ) (hn : 0 < n) :
    compute_combined_sentiment_for_ticker (some s, n) (none, m) =
      (some (round4 s), n) ∧
    compute_combined_sentiment_for_ticker (none, m) (some s, n) =
      (some (round4 s), n) := by
  have hq : (n : ℚ) ≠ 0 := Nat.cast_ne_zero.mpr hn.ne'
  constructor
  · simp [compute_combined_sentiment_for_ticker, hn, hn.ne',
      mul_div_cancel_right₀ s hq]
  · simp [compute_combined_sentiment_for_ticker, hn, hn.ne',
      mul_div_cancel_right₀ s hq]

/-- Witness for C9 at score `-0.3`, count `5`. -/
theorem claim_c9_single_source_witness :
    compute_combined_sentiment_for_ticker (some (-3/10), 5) (none, 0) =
      (some (round4 (-3/10)), 5) ∧
    compute_combined_sentiment_for_ticker (none, 0) (some (-3/10), 5) =
      (some (round4 (-3/10)), 5) :=
  claim_c9_single_source (-3/10) 5 0 (by norm_num)

/-- `takeWhile (· ≠ c)` keeps a list with no occurrence of `c` whole. -/
lemma takeWhile_eq_self_of_not_mem (c : Char) :
    ∀ l : List Char, c ∉ l → l.takeWhile (fun d => d ≠ c) = l := by
  intro l
  induction l with
  | nil => intro _; rfl
  | cons a t ih =>
    intro h
    have ha : a ≠ c := fun he => h (he ▸ List.mem_cons_self a t)
    rw [List.takeWhile_cons_of_pos (by simpa using ha), ih (fun ht => h (List.mem_cons_of_mem a ht))]

/-- `takeBefore` is the identity on strings not holding `c`. -/
lemma takeBefore_of_not_mem (c : Char) (s : String) (h : c ∉ s.data) :
    takeBefore c s = s := by
  unfold takeBefore
  rw [takeWhile_eq_self_of_not_mem c s.data h]

/-- The two sequential cuts of `normalize_ticker_for_news` compose
unconditionally. -/
lemma normalize_eq_cuts (t : String) :
    normalize_ticker_for_news t = takeBefore '-' (takeBefore '/' (pyUpper t)) := by
  simp only [normalize_ticker_for_news]
  by_cases h1 : '/' ∈ (pyUpper t).data
  · by_cases h2 : '-' ∈ (takeBefore '/' (pyUpper t)).data
    · simp [h1, h2]
    · simp [h1, h2, takeBefore_of_not_mem '-' _ h2]
  · rw [takeBefore_of_not_mem '/' _ h1]
    by_cases h2 : '-' ∈ (pyUpper t).data
    · simp [h1, h2]
    · simp [h1, h2, takeBefore_of_not_mem '-' _ h2]

/-- Claim C5 (counterexample): the claim reads the two cuts as `else if`, so an
input with `-` before `/` would keep its `-` part; the code cuts at both, so
`normalize_ticker_for_news "A-B/C"` is `"A"` while the spec's reading gives
`"A-B"`. -/
theorem claim_c5_counterexample :
    normalize_ticker_for_news "A-B/C" = "A" ∧
    normalizeSpec "A-B/C" = "A-B" ∧
    ¬ normalize_ticker_for_news "A-B/C" = normalizeSpec "A-B/C" := by
  refine ⟨by decide, by decide, by decide⟩

/-- Claim C5 (amended): `normalize_ticker_for_news` upper-cases, cuts at the
first `/` if present, and then additionally cuts the result at the first `-`
if present (two sequential cuts, not else-if); the three spec examples hold,
and an input whose only `-` lies after the `/` is still cut only at the `/`. -/
theorem claim_c5_normalize (t : String) :
    normalize_ticker_for_news t = takeBefore '-' (takeBefore '/' (pyUpper t)) ∧
    normalize_ticker_for_news "BTC/USD" = "BTC" ∧
    normalize_ticker_for_news "eth-usdt" = "ETH" ∧
    normalize_ticker_for_news "solusd" = "SOLUSD" ∧
    normalize_ticker_for_news "BTC/US-D" = "BTC" := by
  exact ⟨normalize_eq_cuts t, by decide, by decide, by decide, by decide⟩

/-- Claim C4 (counterexample): a blank entry does not produce an output row.
With data entries `"BTC"`, `""`, `"ETH"` (3 input entries), `get_tickers`
drops the blank and the run emits 2 rows, not 3. -/
theorem claim_c4_counterexample :
    get_tickers ["Ticker", "BTC", "", "ETH"] = ["BTC", "ETH"] ∧
    main (get_tickers ["Ticker", "BTC", "", "ETH"]) (some "key") (some "tok")
        (fun _ => (none, 0)) "ts" =
      RunResult.completed
        [[Cell.str "", Cell.int 0, Cell.str "ts"],
         [Cell.str "", Cell.int 0, Cell.str "ts"]] ∧
    (["BTC", "", "ETH"] : List String).length = 3 ∧
    ¬ (get_tickers ["Ticker", "BTC", "", "ETH"]).length = 3 := by
  exact ⟨by decide, by decide, by decide, by decide⟩

/-- Claim C4 (amended): blank entries are removed entirely by `get_tickers`
and produce no output row; the number of output rows equals the number of
non-blank input entries after the header row. -/
theorem claim_c4_blank_rows (colA : List String) (k tok ts : String)
    (fetch : String → Option ℚ × ℕ) (hk : ¬ k = "") (htok : ¬ tok = "")
    (hne : ¬ get_tickers colA = []) :
    main (get_tickers colA) (some k) (some tok) fetch ts =
      RunResult.completed ((get_tickers colA).map (fun t => rowFor ts (fetch t))) ∧
    (get_tickers colA).length =
      ((colA.drop 1).filter (fun v => pyStrip v ≠ "")).length := by
  constructor
  · simp [main, hne, truthy, hk, htok]
  · rcases colA with _ | ⟨hd, rest⟩
    · exact absurd rfl hne
    · simp [get_tickers]

/-- Witness for C4 (amended) on a concrete column with one blank entry. -/
theorem claim_c4_blank_rows_witness :
    main (get_tickers ["Ticker", "btc", "", "eth"]) (some "k") (some "t")
        (fun _ => (none, 0)) "ts" =
      RunResult.completed
        [[Cell.str "", Cell.int 0, Cell.str "ts"],
         [Cell.str "", Cell.int 0, Cell.str "ts"]] ∧
    (get_tickers ["Ticker", "btc", "", "eth"]).length = 2 := by
  have h := claim_c4_blank_rows ["Ticker", "btc", "", "eth"] "k" "t" "ts"
    (fun _ => (none, 0)) (by decide) (by decide) (by decide)
  exact ⟨h.1.trans (by decide), h.2.trans (by decide)⟩

/-- Claim C7: once processing starts (non-empty ticker list, credentials
present), the run emits exactly one row per ticker in input order — the rows
are the map of `rowFor` over the ticker list — and a ticker whose combined
result is absent still gets the row `["", 0, ts]`, never a missing row. -/
theorem claim_c7_one_row_per_ticker (fetch : String → Option ℚ × ℕ)
    (ts k tok : String) (tickers : List String)
    (hk : ¬ k = "") (htok : ¬ tok = "") (hne : ¬ tickers = []) :
    main tickers (some k) (some tok) fetch ts =
      RunResult.completed (tickers.map (fun t => rowFor ts (fetch t))) ∧
    (tickers.map (fun t => rowFor ts (fetch t))).length = tickers.length ∧
    (∀ t, (fetch t).1 = none →
      rowFor ts (fetch t) = [Cell.str "", Cell.int 0, Cell.str ts]) := by
  refine ⟨?_, List.length_map _ _, ?_⟩
  · simp [main, hne, truthy, hk, htok]
  · intro t h
    simp [rowFor, h]

/-- Witness for C7 on tickers `["BTC/USD", "X"]` where the second yields no
data. -/
theorem claim_c7_one_row_per_ticker_witness :
    main ["BTC/USD", "X"] (some "k") (some "t")
        (fun t => if t = "X" then (none, 0) else (some 1, 2)) "ts" =
      RunResult.completed ((["BTC/USD", "X"] : List String).map
        (fun t => rowFor "ts"
          (if t = "X" then ((none : Option ℚ), (0 : ℕ)) else (some 1, 2)))) ∧
    ((["BTC/USD", "X"] : List String).map
      (fun t => rowFor "ts"
        (if t = "X" then ((none : Option ℚ), (0 : ℕ)) else (some 1, 2)))).length = 2 ∧
    (∀ t, ((if t = "X" then ((none : Option ℚ), (0 : ℕ)) else (some 1, 2)) :
        Option ℚ × ℕ).1 = none →
      rowFor "ts" (if t = "X" then ((none : Option ℚ), (0 : ℕ)) else (some 1, 2)) =
        [Cell.str "", Cell.int 0, Cell.str "ts"]) :=
  claim_c7_one_row_per_ticker
    (fun t => if t = "X" then (none, 0) else (some 1, 2)) "ts" "k" "t"
    ["BTC/USD", "X"] (by decide) (by decide) (by decide)

/-- Claim C8 (counterexample): with an empty ticker list, `main` returns early
(`"No tickers found."`) before the credential checks, so a missing Finnhub key
does not abort the run with an error. -/
theorem claim_c8_counterexample :
    main [] none none (fun _ => (none, 0)) "ts" = RunResult.earlyExit ∧
    ¬ RunResult.earlyExit =
        RunResult.fatal "FINNHUB_API_KEY env var missing." := by
  exact ⟨rfl, by decide⟩

/-- Claim C8 (amended): once the ticker list is non-empty, a missing (or
empty) Finnhub key or CryptoNews token raises before any symbol is processed
and no row is emitted; with both credentials present, the run always
completes with one row per ticker, whatever the per-symbol results — a
no-data symbol never aborts the run. -/
theorem claim_c8_credentials (tickers : List String) (hne : ¬ tickers = [])
    (fetch : String → Option ℚ × ℕ) (ts : String) :
    (∀ tok, main tickers none tok fetch ts =
      RunResult.fatal "FINNHUB_API_KEY env var missing.") ∧
    (∀ tok, main tickers (some "") tok fetch ts =
      RunResult.fatal "FINNHUB_API_KEY env var missing.") ∧
    (∀ k, ¬ k = "" → main tickers (some k) none fetch ts =
      RunResult.fatal "CRYPTONEWS_API_TOKEN env var missing.") ∧
    (∀ k, ¬ k = "" → main tickers (some k) (some "") fetch ts =
      RunResult.fatal "CRYPTONEWS_API_TOKEN env var missing.") ∧
    (∀ k tok, ¬ k = "" → ¬ tok = "" →
      main tickers (some k) (some tok) fetch ts =
        RunResult.completed (tickers.map (fun t => rowFor ts (fetch t)))) := by
  refine ⟨?_, ?_, ?_, ?_, ?_⟩
  · intro tok; simp [main, hne, truthy]
  · intro tok; simp [main, hne, truthy]
  · intro k hk; simp [main, hne, truthy, hk]
  · intro k hk; simp [main, hne, truthy, hk]
  · intro k tok hk htok; simp [main, hne, truthy, hk, htok]

/-- Witness for C8 (amended) on the singleton ticker list `["BTC"]` with a
no-data fetch. -/
theorem claim_c8_credentials_witness :
    main ["BTC"] (some "k") (some "t") (fun _ => (none, 0)) "ts" =
      RunResult.completed ((["BTC"] : List String).map
        (fun _ => rowFor "ts" ((none : Option ℚ), (0 : ℕ)))) :=
  (claim_c8_credentials ["BTC"] (by decide) (fun _ => (none, 0)) "ts").2.2.2.2
    "k" "t" (by decide) (by decide)

/-- `aggregate` always reports the number of scored compounds as the count. -/
lemma aggregate_count (compounds : List ℚ) :
    (aggregate compounds).2 = compounds.length := by
  rcases compounds with _ | ⟨a, t⟩ <;> simp [aggregate]

/-- `aggregate` yields a defined score on any non-empty compound list. -/
lemma aggregate_isSome (compounds : List ℚ) (h : ¬ compounds = []) :
    (aggregate compounds).1.isSome = true := by
  rw [aggregate_of_ne_nil compounds h]
  rfl

/-- Claim C3 (counterexample): CryptoNews has no retry: the response sequence
`[429, 200 with payload]` yields `(absent, 0)` after a single attempt, while
the same 200 response alone yields a successful fetch — so a 429 is not
retried for the CryptoNews client, contradicting the claim's "Finnhub and
CryptoNews alike". -/
theorem claim_c3_counterexample :
    compute_cryptonews_sentiment_for_ticker (fun _ => 1) 20
        [CNAttempt.resp 429 (CNBody.payload CNData.missing),
         CNAttempt.resp 200 (CNBody.payload (CNData.articles
           [⟨some "Bitcoin rallies", none, some "Markets rise", none⟩]))] =
      ((none, 0), 1) ∧
    compute_cryptonews_sentiment_for_ticker (fun _ => 1) 20
        [CNAttempt.resp 200 (CNBody.payload (CNData.articles
           [⟨some "Bitcoin rallies", none, some "Markets rise", none⟩]))] =
      ((some 1, 1), 1) := by
  constructor
  · rfl
  · rw [cryptonews_single_ok (fun _ => 1) 20 _ (by decide)]
    have hmap : List.map (fun _ => (1 : ℚ)) (List.map cnText
        [⟨some "Bitcoin rallies", none, some "Markets rise", none⟩]) = [1] := by
      decide
    rw [hmap, aggregate_singleton]
    norm_num [round4, roundHalfEven]

/-- Claim C3 (amended): the Finnhub client retries a 429 exactly once, after
sleeping `max(0, reset - now + 1)` seconds when the reset header parses and 60
seconds otherwise; a second 429 yields `(absent, 0)` with exactly two HTTP
attempts, whatever further responses are available; `[429, 200 with payload]`
yields the same fetch result as the 200 alone, after one sleep. The CryptoNews
client never retries: a 429 immediately yields `(absent, 0)` after a single
attempt. -/
theorem claim_c3_retry (scorer : String → ℚ) (now : ℤ) (limit : ℕ)
    (r1 r2 : FinnResp) (rest : List FinnAttempt) (h1 : r1.status = 429) :
    (r2.status = 429 →
      compute_finnhub_sentiment_for_ticker scorer now limit
          (.resp r1 :: .resp r2 :: rest) =
        ((none, 0), [waitSecs r1.reset now, waitSecs r2.reset now], 2)) ∧
    (∀ l : List RawArticle, r2.status = 200 → r2.body = .articles l →
      compute_finnhub_sentiment_for_ticker scorer now limit
          (.resp r1 :: .resp r2 :: rest) =
        ((compute_finnhub_sentiment_for_ticker scorer now limit [.resp r2]).1,
          [waitSecs r1.reset now], 2)) ∧
    (∀ ts, waitSecs (.value ts) now = max 0 (ts - now + 1)) ∧
    (waitSecs .absent now = 60 ∧ waitSecs .unparsable now = 60) ∧
    (∀ m b rest2, compute_cryptonews_sentiment_for_ticker scorer m
        (.resp 429 b :: rest2) = ((none, 0), 1)) := by
  refine ⟨?_, ?_, fun ts => rfl, ⟨rfl, rfl⟩, ?_⟩
  · intro h2
    have hl : finnhubLoop now 2 (.resp r1 :: .resp r2 :: rest) =
        (none, [waitSecs r1.reset now, waitSecs r2.reset now], 2) := by
      simp [finnhubLoop, h1, h2]
    simp [compute_finnhub_sentiment_for_ticker, hl]
  · intro l h2 hb
    have hl1 : finnhubLoop now 1 (.resp r2 :: rest) = (some (.list l), [], 1) := by
      simp [finnhubLoop, h2, hb]
    have hl : finnhubLoop now 2 (.resp r1 :: .resp r2 :: rest) =
        (some (.list l), [waitSecs r1.reset now], 2) := by
      simp [finnhubLoop, h1, h2, hb]
    have hs : finnhubLoop now 2 [.resp r2] = (some (.list l), [], 1) := by
      simp [finnhubLoop, h2, hb]
    simp only [compute_finnhub_sentiment_for_ticker, hl, hs]
    by_cases he : l = [] <;> simp [he]
  · intro m b rest2
    simp [compute_cryptonews_sentiment_for_ticker]

/-- Witness for C3 (amended): two 429s, the first with a parsable reset five
seconds ahead, yield `(absent, 0)` after sleeps of 6 and 60 seconds and
exactly two attempts. -/
theorem claim_c3_retry_witness :
    compute_finnhub_sentiment_for_ticker (fun _ => 0) 95 20
        [.resp ⟨429, .value 100, .articles []⟩,
         .resp ⟨429, .absent, .articles []⟩] =
      ((none, 0), [6, 60], 2) := by
  have h := (claim_c3_retry (fun _ => 0) 95 20 ⟨429, .value 100, .articles []⟩
      ⟨429, .absent, .articles []⟩ [] rfl).1 rfl
  exact h.trans (by decide)

/-- Claim C6 (counterexample): the CryptoNews client applies no client-side
truncation: 30 fetched articles with a cap of 20 yield an evidence count of
30, not 20. -/
theorem claim_c6_counterexample :
    (compute_cryptonews_sentiment_for_ticker (fun _ => 0) 20
        [CNAttempt.resp 200 (CNBody.payload (CNData.articles
          (List.replicate 30 ⟨some "Up", none, none, none⟩)))]).1.2 = 30 ∧
    ¬ (30 : ℕ) = 20 := by
  constructor
  · rw [cryptonews_single_ok (fun _ => 0) 20 _ (by decide)]
    rw [aggregate_count]
    decide
  · decide

/-- Claim C6 (amended): the Finnhub client scores exactly the first `limit`
fetched articles in provider order (count `min limit len`); the CryptoNews
client only sends `limit` as the request's `items` parameter and scores every
fetched article with no client-side truncation (count `len`). -/
theorem claim_c6_truncation (scorer : String → ℚ) (now : ℤ) (limit m : ℕ)
    (reset : ResetHeader) (l : List RawArticle) (hl : ¬ l = [])
    (cl : List CNArticle) (hcl : ¬ cl = []) :
    ((compute_finnhub_sentiment_for_ticker scorer now limit
        [.resp ⟨200, reset, .articles l⟩]).1 =
      aggregate (((l.take limit).map finnhubText).map scorer)) ∧
    ((compute_finnhub_sentiment_for_ticker scorer now limit
        [.resp ⟨200, reset, .articles l⟩]).1.2 = min limit l.length) ∧
    ((compute_cryptonews_sentiment_for_ticker scorer m
        [.resp 200 (.payload (.articles cl))]).1 =
      aggregate ((cl.map cnText).map scorer)) ∧
    ((compute_cryptonews_sentiment_for_ticker scorer m
        [.resp 200 (.payload (.articles cl))]).1.2 = cl.length) := by
  refine ⟨?_, ?_, ?_, ?_⟩
  · rw [finnhub_single_ok scorer now limit reset l hl]
  · rw [finnhub_single_ok scorer now limit reset l hl]
    simp [aggregate_count]
  · rw [cryptonews_single_ok scorer m cl hcl]
  · rw [cryptonews_single_ok scorer m cl hcl]
    simp [aggregate_count]

/-- Witness for C6 (amended): 30 fetched Finnhub articles with a cap of 20
yield an evidence count of 20. -/
theorem claim_c6_truncation_witness :
    (compute_finnhub_sentiment_for_ticker (fun _ => 0) 0 20
        [.resp ⟨200, .absent, .articles (List.replicate 30 ⟨some "Up", none⟩)⟩]).1.2 =
      20 := by
  have h := (claim_c6_truncation (fun _ => 0) 0 20 20 .absent
      (List.replicate 30 ⟨some "Up", none⟩) (by decide)
      [⟨some "Up", none, none, none⟩] (by decide)).2.1
  exact h.trans (by decide)

/-- Claim C10: an article whose headline/title and summary/body both strip to
empty still yields the single-character text `"."`; every built text is
non-empty, so every fetched article is scored; hence a non-empty fetched
article list yields a positive evidence count and the "no usable text" branch
returning `(absent, 0)` is unreachable (for Finnhub, under a positive article
cap). -/
theorem claim_c10_text_never_empty (scorer : String → ℚ) :
    (∀ a : RawArticle, pyStrip (orEmpty a.headline) = "" →
      pyStrip (orEmpty a.summary) = "" → finnhubText a = ".") ∧
    (∀ a : CNArticle, pyStrip (cnTitleField a) = "" →
      pyStrip (cnBodyField a) = "" → cnText a = ".") ∧
    (∀ a : RawArticle, ¬ finnhubText a = "") ∧
    (∀ a : CNArticle, ¬ cnText a = "") ∧
    (∀ (l : List RawArticle) (limit : ℕ) (now : ℤ) (reset : ResetHeader),
      ¬ l = [] → 0 < limit →
      ((compute_finnhub_sentiment_for_ticker scorer now limit
          [.resp ⟨200, reset, .articles l⟩]).1.1.isSome = true ∧
        0 < (compute_finnhub_sentiment_for_ticker scorer now limit
          [.resp ⟨200, reset, .articles l⟩]).1.2)) ∧
    (∀ (cl : List CNArticle) (m : ℕ), ¬ cl = [] →
      ((compute_cryptonews_sentiment_for_ticker scorer m
          [.resp 200 (.payload (.articles cl))]).1.1.isSome = true ∧
        0 < (compute_cryptonews_sentiment_for_ticker scorer m
          [.resp 200 (.payload (.articles cl))]).1.2)) := by
  refine ⟨?_, ?_, finnhubText_ne_empty, cnText_ne_empty, ?_, ?_⟩
  · intro a h1 h2
    simp only [finnhubText, h1, h2]
    decide
  · intro a h1 h2
    simp only [cnText, h1, h2]
    decide
  · intro l limit now reset hl hlim
    have hlen : 0 < l.length := List.length_pos.mpr hl
    have hmin : 0 < min limit l.length := lt_min hlim hlen
    have hcne : ¬ ((l.take limit).map finnhubText).map scorer = [] := by
      intro he
      have h0 := congrArg List.length he
      rw [List.length_map, List.length_map, List.length_take,
        List.length_nil] at h0
      exact absurd h0 hmin.ne'
    rw [finnhub_single_ok scorer now limit reset l hl]
    refine ⟨aggregate_isSome _ hcne, ?_⟩
    rw [aggregate_count, List.length_map, List.length_map, List.length_take]
    exact hmin
  · intro cl m hcl
    have hlen : 0 < cl.length := List.length_pos.mpr hcl
    have hcne : ¬ (cl.map cnText).map scorer = [] := by
      intro he
      have h0 := congrArg List.length he
      rw [List.length_map, List.length_map, List.length_nil] at h0
      exact absurd h0 hlen.ne'
    rw [cryptonews_single_ok scorer m cl hcl]
    refine ⟨aggregate_isSome _ hcne, ?_⟩
    rw [aggregate_count, List.length_map, List.length_map]
    exact hlen

/-- Witness for C10: a whitespace-only article still scores, and one such
article alone yields evidence count 1. -/
theorem claim_c10_text_never_empty_witness :
    finnhubText ⟨some "   ", some ""⟩ = "." ∧
    ¬ finnhubText ⟨some "Hello", none⟩ = "" ∧
    0 < (compute_cryptonews_sentiment_for_ticker (fun _ => 0) 20
        [.resp 200 (.payload (.articles [⟨some "  ", none, none, none⟩]))]).1.2 := by
  exact ⟨(claim_c10_text_never_empty (fun _ => 0)).1 ⟨some "   ", some ""⟩
      (by decide) (by decide),
    (claim_c10_text_never_empty (fun _ => 0)).2.2.1 ⟨some "Hello", none⟩,
    ((claim_c10_text_never_empty (fun _ => 0)).2.2.2.2.2
      [⟨some "  ", none, none, none⟩] 20 (by decide)).2⟩

end KrakenScreener
